import Mathlib

/-!
Shallow embedding of the sortable/selectable data table component
(`src/components/ui/data-table.tsx`) and proofs about its sort and
selection logic.

JavaScript runtime values that can appear in a table cell are modelled by
`Value`; a row (`T extends Record<string, any>`) is an association list of
field names to values; the component's two `useState` hooks are the two
fields of `TableState`.  Presentation-only column fields (`render`,
`width`, `align`) play no role in the sort/selection logic and are
omitted from the `Column` structure.
-/

namespace DataTable

/-- A JavaScript primitive value as it appears in a table cell:
`null`, `undefined`, a string, or a number (modelled as `Int`). -/
inductive Value where
  | vnull
  | vundef
  | vstr (s : String)
  | vint (n : Int)
  deriving DecidableEq, Repr

/-- A row record: an association list from field names to values.
Reading a missing field yields `undefined`, as in JavaScript. -/
abbrev Row := List (String × Value)

/-- Field access `record[name]`: first binding wins, missing fields read as `undefined`. -/
def getField (r : Row) (name : String) : Value :=
  match r.find? (fun kv => kv.1 == name) with
  | some kv => kv.2
  | none => Value.vundef

/-- JavaScript `x == null`: true exactly for `null` and `undefined`. -/
def isNullish : Value → Bool
  | Value.vnull => true
  | Value.vundef => true
  | _ => false

/-- JavaScript `Number(x)` restricted to our value model; `none` plays the
role of `NaN`. -/
def toNumber : Value → Option Int
  | Value.vint n => some n
  | Value.vstr s => s.toInt?
  | Value.vnull => some 0
  | Value.vundef => none

/-- Lexicographic order on character lists by code point. -/
def charListLt : List Char → List Char → Bool
  | [], [] => false
  | [], _ :: _ => true
  | _ :: _, [] => false
  | c :: cs, d :: ds =>
    if c.toNat < d.toNat then true
    else if d.toNat < c.toNat then false
    else charListLt cs ds

/-- JavaScript string `<`: lexicographic by code unit. -/
def strLt (s t : String) : Bool := charListLt s.data t.data

/-- ASCII lowercasing of one character. -/
def lowerChar (c : Char) : Char :=
  if 65 ≤ c.toNat ∧ c.toNat ≤ 90 then Char.ofNat (c.toNat + 32) else c

/-- ASCII lowercasing of a string. -/
def strLower (s : String) : String := ⟨s.data.map lowerChar⟩

/-- JavaScript `a < b`: two strings compare lexicographically, anything
else is coerced to a number first and any `NaN` makes the comparison false. -/
def jsLt (a b : Value) : Bool :=
  match a, b with
  | Value.vstr s, Value.vstr t => strLt s t
  | _, _ =>
    match toNumber a, toNumber b with
    | some x, some y => decide (x < y)
    | _, _ => false

/-- Model of `String.prototype.localeCompare`: locale-aware ordering, modelled as a
case-insensitive primary comparison with the raw code-point order as the
tiebreaker.  Returns a negative, zero or positive integer. -/
def localeCompare (s t : String) : Int :=
  if strLt (strLower s) (strLower t) then -1
  else if strLt (strLower t) (strLower s) then 1
  else if strLt s t then -1
  else if strLt t s then 1
  else 0

/-- A column descriptor (`Column<T>`), restricted to the fields the
sort/selection logic reads.  An absent `sortable?` is modelled as `false`,
matching the `!column.sortable` check. -/
structure Column where
  key : String
  title : String
  dataIndex : String
  sortable : Bool
  deriving DecidableEq, Repr

/-- JS `type SortOrder = 'asc' | 'desc' | null`, with `null` as `Option.none`. -/
inductive SortOrder where
  | asc
  | desc
  deriving DecidableEq, Repr

/-- JS `interface SortState { column: string | null; order: SortOrder }`. -/
structure SortState where
  column : Option String
  order : Option SortOrder
  deriving DecidableEq, Repr

/-- The comparator passed to `Array.prototype.sort` in `sortedData`
(lines 65–80 of `data-table.tsx`). -/
def rowComparison (col : Column) (ord : SortOrder) (a b : Row) : Int :=
  let aValue := getField a col.dataIndex
  let bValue := getField b col.dataIndex
  if aValue = bValue then 0
  else
    let comparison : Int :=
      if isNullish aValue then -1
      else if isNullish bValue then 1
      else
        match aValue, bValue with
        | Value.vstr s, Value.vstr t => localeCompare s t
        | _, _ => if jsLt aValue bValue then -1 else 1
    if ord = SortOrder.desc then -comparison else comparison

/-- One step of the stable insertion used to model `Array.prototype.sort`
with a comparator: `x` is placed before the first element it compares
strictly below, so ties keep their input order. -/
def insertRow (c : Row → Row → Int) (x : Row) : List Row → List Row
  | [] => [x]
  | y :: ys => if c x y < 0 then x :: y :: ys else y :: insertRow c x ys

/-- Model of `[...data].sort(comparator)`: a stable comparison sort of a copy of the
input (ECMAScript requires `Array.prototype.sort` to be stable). -/
def stableSort (c : Row → Row → Int) (l : List Row) : List Row :=
  l.foldl (fun acc x => insertRow c x acc) []

/-- JS `rowKey: keyof T | ((record: T) => string | number)`. -/
inductive RowKeyStrategy where
  | field (name : String)
  | fn (f : Row → Value)

/-- The props the sort/selection logic reads (`DataTableProps<T>`); the
presence of the optional `onRowSelect` callback is the boolean
`hasOnRowSelect`, and its invocations are returned as explicit payloads. -/
structure TableProps where
  data : List Row
  columns : List Column
  loading : Bool
  selectable : Bool
  hasOnRowSelect : Bool
  emptyMessage : String
  rowKey : RowKeyStrategy

/-- The component's internal state: the two `useState` hooks. -/
structure TableState where
  sortState : SortState
  selectedRowKeys : List Value

/-- JS `getRowKey(record, index)`: apply the function strategy, or read the
key field and fall back (`?? index`) to the supplied index when the field
reads `null`/`undefined`. -/
def getRowKey (p : TableProps) (record : Row) (index : Nat) : Value :=
  match p.rowKey with
  | RowKeyStrategy.fn f => f record
  | RowKeyStrategy.field name =>
    let v := getField record name
    if isNullish v then Value.vint (Int.ofNat index) else v

/-- The `sortedData` memo: return `data` unchanged when the sort state has
no truthy column (`null` or `""`) or no order, or when no column descriptor
matches the active key; otherwise sort a copy by the comparator. -/
def sortedData (p : TableProps) (st : TableState) : List Row :=
  match st.sortState.column, st.sortState.order with
  | some ck, some ord =>
    if ck = "" then p.data
    else
      match p.columns.find? (fun c => c.key == ck) with
      | none => p.data
      | some col => stableSort (fun a b => rowComparison col ord a b) p.data
  | _, _ => p.data

/-- The `handleSort`'s state update: no-op on unsortable columns, otherwise a
fresh column starts ascending and the active column cycles
ascending → descending → cleared. -/
def handleSort (column : Column) (prev : SortState) : SortState :=
  if !column.sortable then prev
  else if prev.column ≠ some column.key then
    { column := some column.key, order := some SortOrder.asc }
  else
    match prev.order with
    | none => { column := some column.key, order := some SortOrder.asc }
    | some SortOrder.asc => { column := some column.key, order := some SortOrder.desc }
    | some SortOrder.desc => { column := none, order := none }

/-- The `handleSort` lifted to the whole component state: only the sort hook
is written. -/
def handleSortState (column : Column) (st : TableState) : TableState :=
  { st with sortState := handleSort column st.sortState }

/-- JS `Set.prototype.add`: insertion-ordered, duplicate-free.  The selection
set is represented as its insertion-ordered list of distinct elements. -/
def setAdd (s : List Value) (k : Value) : List Value :=
  if k ∈ s then s else s ++ [k]

/-- JS `Set.prototype.delete`. -/
def setDelete (s : List Value) (k : Value) : List Value :=
  s.filter (fun x => x ≠ k)

/-- JS `new Set(elems)`: deduplicate, keeping first occurrences in order. -/
def keySet (l : List Value) : List Value :=
  l.foldl setAdd []

/-- JS `Array.prototype.map` with the element index, starting at `n`. -/
def mapIdxAux (f : Nat → Row → α) : Nat → List Row → List α
  | _, [] => []
  | i, r :: rs => f i r :: mapIdxAux f (i + 1) rs

/-- JS `data.map((record, index) => f index record)`. -/
def mapWithIndex (f : Nat → Row → α) (l : List Row) : List α :=
  mapIdxAux f 0 l

/-- JS `Array.prototype.filter` with the element index, starting at `n`. -/
def filterIdxAux (q : Nat → Row → Bool) : Nat → List Row → List Row
  | _, [] => []
  | i, r :: rs =>
    if q i r then r :: filterIdxAux q (i + 1) rs else filterIdxAux q (i + 1) rs

/-- JS `data.filter((record, index) => q index record)`. -/
def filterWithIndex (q : Nat → Row → Bool) (l : List Row) : List Row :=
  filterIdxAux q 0 l

/-- The list handed to the selection callback in `handleRowSelect`:
`data.filter((record, index) => newSelectedKeys.has(getRowKey(record, index)))`.
Note it filters the original `data`, not the sorted view. -/
def selectedRows (p : TableProps) (keys : List Value) : List Row :=
  filterWithIndex (fun i r => decide (getRowKey p r i ∈ keys)) p.data

/-- JS `handleRowSelect(rowKey, selected)`: returns the new component state
together with the payload passed to `onRowSelect` (`none` when the caller
supplied no callback). -/
def handleRowSelect (p : TableProps) (st : TableState) (rowKey : Value)
    (selected : Bool) : TableState × Option (List Row) :=
  let newSelectedKeys :=
    if selected then setAdd st.selectedRowKeys rowKey
    else setDelete st.selectedRowKeys rowKey
  ({ st with selectedRowKeys := newSelectedKeys },
   if p.hasOnRowSelect then some (selectedRows p newSelectedKeys) else none)

/-- JS `data.map((record, index) => getRowKey(record, index))`: the keys of
all current rows, indexed by original position. -/
def selectAllKeys (p : TableProps) : List Value :=
  mapWithIndex (fun i r => getRowKey p r i) p.data

/-- JS `handleSelectAll(selected)`: select every current row key (as a set)
or clear the selection; the payload is the full `data` or `[]`. -/
def handleSelectAll (p : TableProps) (st : TableState) (selected : Bool) :
    TableState × Option (List Row) :=
  if selected then
    ({ st with selectedRowKeys := keySet (selectAllKeys p) },
     if p.hasOnRowSelect then some p.data else none)
  else
    ({ st with selectedRowKeys := [] },
     if p.hasOnRowSelect then some [] else none)

/-- JS `isAllSelected = data.length > 0 && selectedRowKeys.size === data.length`.
`selectedRowKeys` is duplicate-free by construction, so its length is the
JavaScript `Set.size`. -/
def isAllSelected (p : TableProps) (st : TableState) : Bool :=
  decide (0 < p.data.length) && (st.selectedRowKeys.length == p.data.length)

/-- JS `isIndeterminate = size > 0 && size < data.length`. -/
def isIndeterminate (p : TableProps) (st : TableState) : Bool :=
  decide (0 < st.selectedRowKeys.length) &&
    decide (st.selectedRowKeys.length < p.data.length)

/-- The row keys computed at the render site
(`sortedData.map((record, index) => getRowKey(record, index))`): the index
passed to `getRowKey` here is the position in the *sorted* view. -/
def renderRowKeys (p : TableProps) (st : TableState) : List Value :=
  mapWithIndex (fun i r => getRowKey p r i) (sortedData p st)

/-- An observable atom of the rendered output, abstracting the JSX tree. -/
inductive RenderAtom where
  | emptyStateTitle
  | emptyStateMessage (s : String)
  | selectAllCheckbox (checked : Bool) (indeterminate : Bool)
  | columnHeader (title : String)
  | loadingRow
  | rowCheckbox (key : Value) (checked : Bool)
  | cell (columnKey : String) (value : Value)
  deriving DecidableEq, Repr

/-- The three render states of the component. -/
inductive RenderMode where
  | loading
  | empty
  | populated
  deriving DecidableEq, Repr

/-- Which of the three states the component renders: the early return
`if (!loading && data.length === 0)` yields the empty panel, otherwise the
body is a spinner row when `loading` and the data rows when not. -/
def renderMode (p : TableProps) : RenderMode :=
  if !p.loading && p.data.length == 0 then RenderMode.empty
  else if p.loading then RenderMode.loading
  else RenderMode.populated

/-- The rendered output as a flat list of atoms, following the component's
JSX: the empty-state panel short-circuits; otherwise the header (select-all
checkbox when selectable, then one header per column) is followed by either
the spinner row or the sorted data rows with their checkboxes and cells. -/
def render (p : TableProps) (st : TableState) : List RenderAtom :=
  if !p.loading && p.data.length == 0 then
    [RenderAtom.emptyStateTitle, RenderAtom.emptyStateMessage p.emptyMessage]
  else
    (if p.selectable then
      [RenderAtom.selectAllCheckbox (isAllSelected p st) (isIndeterminate p st)]
     else []) ++
    p.columns.map (fun c => RenderAtom.columnHeader c.title) ++
    (if p.loading then [RenderAtom.loadingRow]
     else
       (mapWithIndex (fun i r =>
          let key := getRowKey p r i
          (if p.selectable then
            [RenderAtom.rowCheckbox key (decide (key ∈ st.selectedRowKeys))]
           else []) ++
          p.columns.map (fun c => RenderAtom.cell c.key (getField r c.dataIndex)))
        (sortedData p st)).flatten)

/-- A caller-side view of one mounted component: the props supplied by the
caller together with the component's internal state. -/
structure TableWorld where
  props : TableProps
  state : TableState

/-- A header click at the world level: only the internal state changes. -/
def worldSort (c : Column) (w : TableWorld) : TableWorld :=
  { w with state := handleSortState c w.state }

/-- A row-checkbox toggle at the world level. -/
def worldRowSelect (k : Value) (sel : Bool) (w : TableWorld) : TableWorld :=
  { w with state := (handleRowSelect w.props w.state k sel).1 }

/-- A select-all toggle at the world level. -/
def worldSelectAll (sel : Bool) (w : TableWorld) : TableWorld :=
  { w with state := (handleSelectAll w.props w.state sel).1 }

/-- Modelled from the spec: the caller-visible selected-rows list "in
current display order", i.e. the *sorted* view filtered for membership of
each row's key in the selection set.  This is the spec's wording; the
implementation's `selectedRows` filters the original `data` instead, and
the two are compared below. -/
def displayOrderSelectedRows (p : TableProps) (st : TableState)
    (keys : List Value) : List Row :=
  filterWithIndex (fun i r => decide (getRowKey p r i ∈ keys)) (sortedData p st)

/-! ## Helper lemmas about the stable sort -/

/-- The function `insertRow` inserts exactly `x` and keeps everything else. -/
theorem insertRow_mem {c : Row → Row → Int} {x y : Row} :
    ∀ {l : List Row}, y ∈ insertRow c x l ↔ (y = x ∨ y ∈ l) := by
  intro l
  induction l with
  | nil => simp [insertRow]
  | cons z zs ih =>
    simp only [insertRow]
    split
    · simp only [List.mem_cons]
    · simp only [List.mem_cons, ih]
      tauto

/-- The list splits into a prefix where `q` holds and a suffix where it
fails. -/
def SepBy (q : Row → Bool) (l : List Row) : Prop :=
  ∃ l1 l2, l = l1 ++ l2 ∧ (∀ x ∈ l1, q x = true) ∧ (∀ x ∈ l2, q x = false)

/-- Inserting an element satisfying `q` that compares strictly below every
element refuting `q` preserves the separation. -/
theorem insertRow_sep_pos {q : Row → Bool} {c : Row → Row → Int} {x : Row}
    (hx : q x = true) (hc : ∀ y, q y = false → c x y < 0) :
    ∀ (l1 l2 : List Row), (∀ z ∈ l1, q z = true) → (∀ z ∈ l2, q z = false) →
    SepBy q (insertRow c x (l1 ++ l2)) := by
  intro l1
  induction l1 with
  | nil =>
    intro l2 _ h2
    cases l2 with
    | nil => exact ⟨[x], [], rfl, by simp [hx], by simp⟩
    | cons y ys =>
      have hlt : c x y < 0 := hc y (h2 y (List.mem_cons_self y ys))
      refine ⟨[x], y :: ys, ?_, by simp [hx], h2⟩
      simp [insertRow, hlt]
  | cons y l1' ih =>
    intro l2 h1 h2
    have hy : q y = true := h1 y (List.mem_cons_self y l1')
    show SepBy q (insertRow c x (y :: (l1' ++ l2)))
    by_cases hlt : c x y < 0
    · refine ⟨x :: y :: l1', l2, ?_, ?_, h2⟩
      · simp [insertRow, hlt]
      · intro z hz
        rcases List.mem_cons.mp hz with rfl | hz
        · exact hx
        · rcases List.mem_cons.mp hz with rfl | hz
          · exact hy
          · exact h1 z (List.mem_cons_of_mem y hz)
    · obtain ⟨m1, m2, he, hm1, hm2⟩ :=
        ih l2 (fun z hz => h1 z (List.mem_cons_of_mem y hz)) h2
      refine ⟨y :: m1, m2, ?_, ?_, hm2⟩
      · simp [insertRow, hlt, he]
      · intro z hz
        rcases List.mem_cons.mp hz with rfl | hz
        · exact hy
        · exact hm1 z hz

/-- Inserting into a list of elements refuting `q` keeps every element
refuting `q`. -/
theorem insertRow_all_neg {q : Row → Bool} {c : Row → Row → Int} {x : Row}
    (hx : q x = false) :
    ∀ (l : List Row), (∀ z ∈ l, q z = false) →
    ∀ z ∈ insertRow c x l, q z = false := by
  intro l hl z hz
  rcases insertRow_mem.mp hz with rfl | hz
  · exact hx
  · exact hl z hz

/-- Inserting an element refuting `q` that never compares strictly below
an element satisfying `q` preserves the separation. -/
theorem insertRow_sep_neg {q : Row → Bool} {c : Row → Row → Int} {x : Row}
    (hx : q x = false) (hc : ∀ y, q y = true → ¬ c x y < 0) :
    ∀ (l1 l2 : List Row), (∀ z ∈ l1, q z = true) → (∀ z ∈ l2, q z = false) →
    SepBy q (insertRow c x (l1 ++ l2)) := by
  intro l1
  induction l1 with
  | nil =>
    intro l2 _ h2
    exact ⟨[], insertRow c x l2, by simp, by simp, insertRow_all_neg hx l2 h2⟩
  | cons y l1' ih =>
    intro l2 h1 h2
    have hy : q y = true := h1 y (List.mem_cons_self y l1')
    have hnlt : ¬ c x y < 0 := hc y hy
    obtain ⟨m1, m2, he, hm1, hm2⟩ :=
      ih l2 (fun z hz => h1 z (List.mem_cons_of_mem y hz)) h2
    refine ⟨y :: m1, m2, ?_, ?_, hm2⟩
    · show insertRow c x (y :: (l1' ++ l2)) = (y :: m1) ++ m2
      simp [insertRow, hnlt, he]
    · intro z hz
      rcases List.mem_cons.mp hz with rfl | hz
      · exact hy
      · exact hm1 z hz

/-- The insertion fold keeps the separation invariant. -/
theorem foldl_insertRow_sep {q : Row → Bool} {c : Row → Row → Int}
    (hpos : ∀ x y, q x = true → q y = false → c x y < 0)
    (hneg : ∀ x y, q x = false → q y = true → ¬ c x y < 0) :
    ∀ (l acc : List Row), SepBy q acc →
    SepBy q (l.foldl (fun a x => insertRow c x a) acc) := by
  intro l
  induction l with
  | nil => intro acc h; exact h
  | cons x xs ih =>
    intro acc h
    simp only [List.foldl_cons]
    apply ih
    obtain ⟨l1, l2, rfl, h1, h2⟩ := h
    cases hqx : q x with
    | true => exact insertRow_sep_pos hqx (fun y hy => hpos x y hqx hy) l1 l2 h1 h2
    | false => exact insertRow_sep_neg hqx (fun y hy => hneg x y hqx hy) l1 l2 h1 h2

/-- If `q`-elements compare strictly below non-`q`-elements and never the
other way around, the stable sort puts all `q`-elements first. -/
theorem stableSort_sep {q : Row → Bool} {c : Row → Row → Int}
    (hpos : ∀ x y, q x = true → q y = false → c x y < 0)
    (hneg : ∀ x y, q x = false → q y = true → ¬ c x y < 0)
    (l : List Row) : SepBy q (stableSort c l) :=
  foldl_insertRow_sep hpos hneg l [] ⟨[], [], rfl, by simp, by simp⟩

/-- The function `insertRow` produces a permutation of pushing the element in front. -/
theorem insertRow_perm (c : Row → Row → Int) (x : Row) :
    ∀ (l : List Row), (insertRow c x l).Perm (x :: l) := by
  intro l
  induction l with
  | nil => simp [insertRow]
  | cons y ys ih =>
    simp only [insertRow]
    split
    · exact List.Perm.refl _
    · exact (ih.cons y).trans (List.Perm.swap x y ys)

/-- The insertion fold permutes its accumulator and input. -/
theorem foldl_insertRow_perm (c : Row → Row → Int) :
    ∀ (l acc : List Row),
    (l.foldl (fun a x => insertRow c x a) acc).Perm (acc ++ l) := by
  intro l
  induction l with
  | nil => intro acc; simp
  | cons x xs ih =>
    intro acc
    simp only [List.foldl_cons]
    have h1 := ih (insertRow c x acc)
    have h2 : (insertRow c x acc ++ xs).Perm ((x :: acc) ++ xs) :=
      (insertRow_perm c x acc).append_right xs
    have h3 : (acc ++ x :: xs).Perm (x :: (acc ++ xs)) := List.perm_middle
    exact (h1.trans h2).trans h3.symm

/-- The stable sort is a permutation: no row is lost, duplicated or
altered. -/
theorem stableSort_perm (c : Row → Row → Int) (l : List Row) :
    (stableSort c l).Perm l := by
  have h := foldl_insertRow_perm c l []
  simpa [stableSort] using h

/-- The view `sortedData` always returns a permutation of the caller's rows. -/
theorem sortedData_perm (p : TableProps) (st : TableState) :
    (sortedData p st).Perm p.data := by
  obtain ⟨⟨c0, o0⟩, keys⟩ := st
  unfold sortedData
  cases c0 with
  | none => exact List.Perm.refl _
  | some ck =>
    cases o0 with
    | none => exact List.Perm.refl _
    | some ord =>
      simp only
      by_cases hck : ck = ""
      · simp [hck]
      · rw [if_neg hck]
        cases p.columns.find? (fun col => col.key == ck) with
        | none => exact List.Perm.refl _
        | some col => exact stableSort_perm _ _

/-! ## Helper lemmas about the comparator -/

/-- A nullish value is never strictly equal to a non-nullish one. -/
theorem isNullish_ne_of_ne {a b : Value} (ha : isNullish a = true)
    (hb : isNullish b = false) : a ≠ b := by
  intro h
  rw [h, hb] at ha
  exact Bool.noConfusion ha

/-- A nullish left value that is not strictly equal to the right value
compares below it ascending and above it descending. -/
theorem rowComparison_nullish_left (col : Column) (a b : Row)
    (ha : isNullish (getField a col.dataIndex) = true)
    (hne : getField a col.dataIndex ≠ getField b col.dataIndex) :
    rowComparison col SortOrder.asc a b = -1 ∧
    rowComparison col SortOrder.desc a b = 1 := by
  constructor <;> simp [rowComparison, hne, ha]

/-- A non-nullish left value against a nullish right value compares above
it ascending and below it descending. -/
theorem rowComparison_nullish_right (col : Column) (a b : Row)
    (ha : isNullish (getField a col.dataIndex) = false)
    (hb : isNullish (getField b col.dataIndex) = true) :
    rowComparison col SortOrder.asc a b = 1 ∧
    rowComparison col SortOrder.desc a b = -1 := by
  have hne : getField a col.dataIndex ≠ getField b col.dataIndex :=
    fun h => isNullish_ne_of_ne hb ha h.symm
  constructor <;> simp [rowComparison, hne, ha, hb]

/-- Under an active, resolvable sort column, `sortedData` is the stable
sort by the row comparator. -/
theorem sortedData_eq_stableSort (p : TableProps) (st : TableState)
    (ck : String) (ord : SortOrder) (col : Column)
    (h1 : st.sortState.column = some ck) (h2 : st.sortState.order = some ord)
    (h3 : ck ≠ "") (h4 : p.columns.find? (fun c => c.key == ck) = some col) :
    sortedData p st = stableSort (fun a b => rowComparison col ord a b) p.data := by
  unfold sortedData
  rw [h1, h2]
  simp [h3, h4]

/-! ## Helper lemmas about indexed map and filter -/

/-- The filter `filterIdxAux` returns a sublist of its input, whatever the start
index: the surviving rows keep their input order. -/
theorem filterIdxAux_sublist (q : Nat → Row → Bool) :
    ∀ (l : List Row) (n : Nat), (filterIdxAux q n l).Sublist l := by
  intro l
  induction l with
  | nil => intro n; simp [filterIdxAux]
  | cons r rs ih =>
    intro n
    simp only [filterIdxAux]
    split
    · exact (ih (n + 1)).cons₂ r
    · exact (ih (n + 1)).cons r

/-- Two indexed filters agree when their predicates agree on the list. -/
theorem filterIdxAux_congr {q q' : Nat → Row → Bool} :
    ∀ (l : List Row) (n : Nat), (∀ i r, r ∈ l → q i r = q' i r) →
    filterIdxAux q n l = filterIdxAux q' n l := by
  intro l
  induction l with
  | nil => intro n _; rfl
  | cons r rs ih =>
    intro n h
    simp only [filterIdxAux, h n r (List.mem_cons_self r rs)]
    rw [ih (n + 1) (fun i z hz => h i z (List.mem_cons_of_mem r hz))]

/-- An indexed map preserves length. -/
theorem mapIdxAux_length {α : Type} (f : Nat → Row → α) :
    ∀ (l : List Row) (n : Nat), (mapIdxAux f n l).length = l.length := by
  intro l
  induction l with
  | nil => intro n; rfl
  | cons r rs ih =>
    intro n
    simp [mapIdxAux, ih (n + 1)]

/-- The key list built by `handleSelectAll` has one key per row. -/
theorem selectAllKeys_length (p : TableProps) :
    (selectAllKeys p).length = p.data.length :=
  mapIdxAux_length _ p.data 0

/-! ## Helper lemmas about the selection set -/

/-- Deleting a key that was not there after adding it restores the set. -/
theorem setDelete_setAdd_of_not_mem {keys : List Value} {k : Value}
    (hk : k ∉ keys) : setDelete (setAdd keys k) k = keys := by
  unfold setAdd setDelete
  rw [if_neg hk, List.filter_append]
  have h1 : keys.filter (fun x => x ≠ k) = keys := by
    rw [List.filter_eq_self]
    intro a ha
    simp only [ne_eq, decide_eq_true_eq]
    exact fun h => hk (h ▸ ha)
  have h2 : ([k].filter (fun x => x ≠ k) : List Value) = [] := by simp
  rw [h1, h2, List.append_nil]

/-- Folding `setAdd` over fresh, distinct elements appends them all. -/
theorem foldl_setAdd_eq_append :
    ∀ (l acc : List Value), (acc ++ l).Nodup →
    l.foldl setAdd acc = acc ++ l := by
  intro l
  induction l with
  | nil => intro acc _; simp
  | cons x xs ih =>
    intro acc h
    have hdisj := List.disjoint_of_nodup_append h
    have hx : x ∉ acc := fun hmem => hdisj hmem (List.mem_cons_self x xs)
    simp only [List.foldl_cons, setAdd, if_neg hx]
    have hnd : ((acc ++ [x]) ++ xs).Nodup := by
      rw [List.append_assoc]
      simpa using h
    rw [ih (acc ++ [x]) hnd, List.append_assoc]
    rfl

/-- Building `new Set(l)` of a duplicate-free list is the list itself. -/
theorem keySet_eq_self_of_nodup {l : List Value} (h : l.Nodup) :
    keySet l = l := by
  have := foldl_setAdd_eq_append l [] (by simpa using h)
  simpa [keySet] using this

/-- When every row's key field reads nullish, the indexed key map yields
exactly the running positional indices. -/
theorem mapIdxAux_getRowKey_range (p : TableProps) (name : String)
    (hk : p.rowKey = RowKeyStrategy.field name) :
    ∀ (l : List Row) (n : Nat), (∀ r ∈ l, isNullish (getField r name) = true) →
    mapIdxAux (fun i r => getRowKey p r i) n l =
      (List.range' n l.length).map (fun i => Value.vint (Int.ofNat i)) := by
  intro l
  induction l with
  | nil => intro n _; rfl
  | cons r rs ih =>
    intro n h
    have hr : isNullish (getField r name) = true := h r (List.mem_cons_self r rs)
    have hhead : getRowKey p r n = Value.vint (Int.ofNat n) := by
      simp [getRowKey, hk, hr]
    simp only [mapIdxAux, List.length_cons, List.range'_succ, List.map_cons]
    rw [hhead, ih (n + 1) (fun z hz => h z (List.mem_cons_of_mem r hz))]

/-! ## Concrete fixtures

Rows and props used to instantiate the theorems below; the first two rows
are the spec's locale-compare scenario (`{id:1,name:"Bob"}`,
`{id:2,name:"alice"}`). -/

/-- Row `{id: 1, name: "Bob"}`. -/
def rowBob : Row := [("id", Value.vint 1), ("name", Value.vstr "Bob")]

/-- Row `{id: 2, name: "alice"}`. -/
def rowAlice : Row := [("id", Value.vint 2), ("name", Value.vstr "alice")]

/-- Row `{id: 3, name: null}`. -/
def rowNullName : Row := [("id", Value.vint 3), ("name", Value.vnull)]

/-- A sortable `name` column. -/
def nameColumn : Column :=
  { key := "name", title := "Name", dataIndex := "name", sortable := true }

/-- A non-sortable `id` column. -/
def idColumn : Column :=
  { key := "id", title := "Id", dataIndex := "id", sortable := false }

/-- Props for the two-row sample, keyed by `id`. -/
def sampleProps : TableProps :=
  { data := [rowBob, rowAlice], columns := [nameColumn, idColumn],
    loading := false, selectable := true, hasOnRowSelect := true,
    emptyMessage := "No data available", rowKey := RowKeyStrategy.field "id" }

/-- Props for a three-row sample including a null name, keyed by `id`. -/
def nullNameProps : TableProps :=
  { sampleProps with data := [rowBob, rowNullName, rowAlice] }

/-- Sort state: `name` ascending. -/
def sortByNameAsc : SortState :=
  { column := some "name", order := some SortOrder.asc }

/-- The initial component state: no sort, empty selection. -/
def initialState : TableState :=
  { sortState := { column := none, order := none }, selectedRowKeys := [] }

/-- Component state: sorted by name ascending, row key `2` selected. -/
def selectedTwoState : TableState :=
  { sortState := sortByNameAsc, selectedRowKeys := [Value.vint 2] }

/-- Row `{name: "b"}` — no `id` field. -/
def anonRowB : Row := [("name", Value.vstr "b")]

/-- Row `{name: "a"}` — no `id` field. -/
def anonRowA : Row := [("name", Value.vstr "a")]

/-- Props whose rows have no `id` key field at all. -/
def anonProps : TableProps :=
  { sampleProps with data := [anonRowB, anonRowA] }

/-- State sorting the anonymous rows by name ascending. -/
def anonSortedState : TableState :=
  { sortState := sortByNameAsc, selectedRowKeys := [] }

/-! ## Claims -/

/-- Claim C1.  The comparator used on the active sort column first checks
strict equality and returns 0 on equal values; otherwise a nullish value
compares as less than any defined value, two strings compare by the
locale-aware ordering, any other pair by the generic less-than; the
descending order negates the comparison (nullish outcome included), so
nullish rows come first ascending and last descending in the sorted view. -/
theorem sort_comparator_and_null_placement :
    (∀ (col : Column) (ord : SortOrder) (a b : Row),
      getField a col.dataIndex = getField b col.dataIndex →
      rowComparison col ord a b = 0)
    ∧ (∀ (col : Column) (a b : Row),
      isNullish (getField a col.dataIndex) = true →
      getField a col.dataIndex ≠ getField b col.dataIndex →
      rowComparison col SortOrder.asc a b = -1)
    ∧ (∀ (col : Column) (a b : Row),
      isNullish (getField a col.dataIndex) = false →
      isNullish (getField b col.dataIndex) = true →
      rowComparison col SortOrder.asc a b = 1)
    ∧ (∀ (col : Column) (a b : Row) (s t : String),
      getField a col.dataIndex = Value.vstr s →
      getField b col.dataIndex = Value.vstr t → s ≠ t →
      rowComparison col SortOrder.asc a b = localeCompare s t)
    ∧ (∀ (col : Column) (a b : Row),
      getField a col.dataIndex ≠ getField b col.dataIndex →
      isNullish (getField a col.dataIndex) = false →
      isNullish (getField b col.dataIndex) = false →
      ((∀ s, getField a col.dataIndex ≠ Value.vstr s) ∨
       (∀ t, getField b col.dataIndex ≠ Value.vstr t)) →
      rowComparison col SortOrder.asc a b =
        (if jsLt (getField a col.dataIndex) (getField b col.dataIndex)
         then -1 else 1))
    ∧ (∀ (col : Column) (a b : Row),
      rowComparison col SortOrder.desc a b = - rowComparison col SortOrder.asc a b)
    ∧ (∀ (p : TableProps) (st : TableState) (ck : String) (ord : SortOrder)
        (col : Column),
      st.sortState.column = some ck → st.sortState.order = some ord →
      ck ≠ "" → p.columns.find? (fun c => c.key == ck) = some col →
      ((ord = SortOrder.asc →
        SepBy (fun r => isNullish (getField r col.dataIndex)) (sortedData p st))
       ∧ (ord = SortOrder.desc →
        SepBy (fun r => !isNullish (getField r col.dataIndex)) (sortedData p st)))) := by
  refine ⟨?_, ?_, ?_, ?_, ?_, ?_, ?_⟩
  · intro col ord a b h
    simp [rowComparison, h]
  · intro col a b ha hne
    exact (rowComparison_nullish_left col a b ha hne).1
  · intro col a b ha hb
    exact (rowComparison_nullish_right col a b ha hb).1
  · intro col a b s t ha hb hst
    have hne : getField a col.dataIndex ≠ getField b col.dataIndex := by
      rw [ha, hb]
      simp [hst]
    have hna : isNullish (getField a col.dataIndex) = false := by
      rw [ha]; rfl
    simp only [rowComparison, if_neg hne, hna, if_false, Bool.false_eq_true]
    rw [ha, hb]
    rfl
  · intro col a b hne ha hb hns
    simp only [rowComparison, if_neg hne, ha, hb, if_false, Bool.false_eq_true]
    rcases hns with hns | hns
    · cases hA : getField a col.dataIndex with
      | vnull => rw [hA] at ha; exact absurd ha (by simp [isNullish])
      | vundef => rw [hA] at ha; exact absurd ha (by simp [isNullish])
      | vstr s => exact absurd hA (hns s)
      | vint n => rfl
    · cases hB : getField b col.dataIndex with
      | vnull => rw [hB] at hb; exact absurd hb (by simp [isNullish])
      | vundef => rw [hB] at hb; exact absurd hb (by simp [isNullish])
      | vstr t => exact absurd hB (hns t)
      | vint m =>
        cases hA : getField a col.dataIndex with
        | vnull => rw [hA] at ha; exact absurd ha (by simp [isNullish])
        | vundef => rw [hA] at ha; exact absurd ha (by simp [isNullish])
        | vstr s => rfl
        | vint n => rfl
  · intro col a b
    by_cases h : getField a col.dataIndex = getField b col.dataIndex
    · simp [rowComparison, h]
    · simp [rowComparison, h]
  · intro p st ck ord col h1 h2 h3 h4
    rw [sortedData_eq_stableSort p st ck ord col h1 h2 h3 h4]
    constructor
    · rintro rfl
      apply stableSort_sep
      · intro x y hx hy
        have h := (rowComparison_nullish_left col x y hx
          (isNullish_ne_of_ne hx hy)).1
        omega
      · intro x y hx hy
        have h := (rowComparison_nullish_right col x y hx hy).1
        omega
    · rintro rfl
      apply stableSort_sep
      · intro x y hx hy
        have hx' : isNullish (getField x col.dataIndex) = false := by
          revert hx; cases isNullish (getField x col.dataIndex) <;> simp
        have hy' : isNullish (getField y col.dataIndex) = true := by
          revert hy; cases isNullish (getField y col.dataIndex) <;> simp
        have h := (rowComparison_nullish_right col x y hx' hy').2
        omega
      · intro x y hx hy
        have hx' : isNullish (getField x col.dataIndex) = true := by
          revert hx; cases isNullish (getField x col.dataIndex) <;> simp
        have hy' : isNullish (getField y col.dataIndex) = false := by
          revert hy; cases isNullish (getField y col.dataIndex) <;> simp
        have h := (rowComparison_nullish_left col x y hx'
          (isNullish_ne_of_ne hx' hy')).2
        omega

/-- Witness for C1 at concrete inputs: a null name sorts as less than the
string `"alice"`; `"Bob"` against `"alice"` uses the locale comparison;
with a null-name row present, the ascending sorted view separates into
null-name rows followed by the rest. -/
theorem sort_comparator_and_null_placement_witness :
    rowComparison nameColumn SortOrder.asc rowNullName rowAlice = -1
    ∧ rowComparison nameColumn SortOrder.asc rowBob rowAlice =
        localeCompare "Bob" "alice"
    ∧ SepBy (fun r => isNullish (getField r "name"))
        (sortedData nullNameProps anonSortedState) := by
  refine ⟨?_, ?_, ?_⟩
  · exact sort_comparator_and_null_placement.2.1 nameColumn rowNullName rowAlice
      (by decide) (by decide)
  · exact sort_comparator_and_null_placement.2.2.2.1 nameColumn rowBob rowAlice
      "Bob" "alice" (by decide) (by decide) (by decide)
  · exact (sort_comparator_and_null_placement.2.2.2.2.2.2 nullNameProps
      anonSortedState "name" SortOrder.asc nameColumn rfl rfl (by decide)
      (by decide)).1 rfl

/-- Claim C2.  For a sortable column that is not active, three clicks walk
ascending → descending → cleared; a click on a non-sortable column is a
no-op on the sort state. -/
theorem sort_cycle_closure (c : Column) (s : SortState) :
    (c.sortable = true → s.column ≠ some c.key →
      handleSort c s = { column := some c.key, order := some SortOrder.asc }
      ∧ handleSort c (handleSort c s) =
          { column := some c.key, order := some SortOrder.desc }
      ∧ handleSort c (handleSort c (handleSort c s)) =
          { column := none, order := none })
    ∧ (c.sortable = false → handleSort c s = s) := by
  constructor
  · intro hs hne
    have h1 : handleSort c s =
        { column := some c.key, order := some SortOrder.asc } := by
      simp [handleSort, hs, hne]
    have h2 : handleSort c { column := some c.key, order := some SortOrder.asc } =
        { column := some c.key, order := some SortOrder.desc } := by
      simp [handleSort, hs]
    have h3 : handleSort c { column := some c.key, order := some SortOrder.desc } =
        { column := none, order := none } := by
      simp [handleSort, hs]
    exact ⟨h1, by rw [h1, h2], by rw [h1, h2, h3]⟩
  · intro hs
    simp [handleSort, hs]

/-- Witness for C2: clicking the sortable `name` column three times from
the initial state cycles ascending, descending, cleared; clicking the
non-sortable `id` column changes nothing. -/
theorem sort_cycle_closure_witness :
    handleSort nameColumn { column := none, order := none } =
      { column := some "name", order := some SortOrder.asc }
    ∧ handleSort nameColumn (handleSort nameColumn
        { column := none, order := none }) =
      { column := some "name", order := some SortOrder.desc }
    ∧ handleSort nameColumn (handleSort nameColumn (handleSort nameColumn
        { column := none, order := none })) =
      { column := none, order := none }
    ∧ handleSort idColumn sortByNameAsc = sortByNameAsc := by
  have h := (sort_cycle_closure nameColumn
    { column := none, order := none }).1 (by decide) (by decide)
  exact ⟨h.1, h.2.1, h.2.2,
    (sort_cycle_closure idColumn sortByNameAsc).2 (by decide)⟩

/-- Claim C3, counterexample.  With the table sorted by name ascending the
display order is `[rowAlice, rowBob]`, but toggling `rowBob`'s key on
invokes the callback with `[rowBob, rowAlice]` — the original input order,
not the current display order the claim requires. -/
theorem row_select_callback_not_display_order :
    (handleRowSelect sampleProps selectedTwoState (Value.vint 1) true).2 =
      some [rowBob, rowAlice]
    ∧ displayOrderSelectedRows sampleProps
        ((handleRowSelect sampleProps selectedTwoState (Value.vint 1) true).1)
        ((handleRowSelect sampleProps selectedTwoState
          (Value.vint 1) true).1).selectedRowKeys = [rowAlice, rowBob]
    ∧ ([rowBob, rowAlice] : List Row) ≠ [rowAlice, rowBob] := by
  refine ⟨by decide, by decide, by decide⟩

/-- Claim C3, amended.  When a callback is supplied, `toggle-row-selection`
invokes it with exactly the rows of the current collection whose keys are
in the updated selection set, in the collection's *original input order*
(the payload is a sublist of `data`), not in display order. -/
theorem row_select_callback_original_order (p : TableProps) (st : TableState)
    (k : Value) (sel : Bool) (hcb : p.hasOnRowSelect = true) :
    (handleRowSelect p st k sel).2 =
      some (selectedRows p ((handleRowSelect p st k sel).1).selectedRowKeys)
    ∧ (selectedRows p
        ((handleRowSelect p st k sel).1).selectedRowKeys).Sublist p.data := by
  constructor
  · simp [handleRowSelect, hcb]
  · exact filterIdxAux_sublist _ p.data 0

/-- Witness for amended C3: toggling key `1` on reports `[rowBob, rowAlice]`,
a sublist of the input data. -/
theorem row_select_callback_original_order_witness :
    (handleRowSelect sampleProps selectedTwoState (Value.vint 1) true).2 =
      some (selectedRows sampleProps
        ((handleRowSelect sampleProps selectedTwoState
          (Value.vint 1) true).1).selectedRowKeys)
    ∧ (selectedRows sampleProps
        ((handleRowSelect sampleProps selectedTwoState
          (Value.vint 1) true).1).selectedRowKeys).Sublist sampleProps.data :=
  row_select_callback_original_order sampleProps selectedTwoState
    (Value.vint 1) true (by decide)

/-- Claim C4, counterexample.  For a key already selected (`2` in
`selectedTwoState`), toggling it on and then off empties the selection set
instead of restoring `{2}`: the round-trip fails for keys already present. -/
theorem toggle_roundtrip_fails_on_selected_key :
    ((handleRowSelect sampleProps
      ((handleRowSelect sampleProps selectedTwoState (Value.vint 2) true).1)
      (Value.vint 2) false).1).selectedRowKeys = []
    ∧ selectedTwoState.selectedRowKeys = [Value.vint 2]
    ∧ ([] : List Value) ≠ [Value.vint 2] := by
  refine ⟨by decide, by decide, by decide⟩

/-- Claim C4, amended.  `toggle-row-selection(k, true)` followed by
`toggle-row-selection(k, false)` restores the component state exactly for
every key `k` not already in the selection set (for a key already present
the round-trip removes it instead). -/
theorem toggle_roundtrip_restores (p : TableProps) (st : TableState)
    (k : Value) (hk : k ∉ st.selectedRowKeys) :
    (handleRowSelect p
      ((handleRowSelect p st k true).1) k false).1 = st := by
  obtain ⟨ss, keys⟩ := st
  simp only [handleRowSelect]
  rw [TableState.mk.injEq]
  exact ⟨rfl, setDelete_setAdd_of_not_mem hk⟩

/-- Witness for amended C4: key `1` is not selected in `selectedTwoState`,
and the on/off round-trip restores the state. -/
theorem toggle_roundtrip_restores_witness :
    (handleRowSelect sampleProps
      ((handleRowSelect sampleProps selectedTwoState (Value.vint 1) true).1)
      (Value.vint 1) false).1 = selectedTwoState :=
  toggle_roundtrip_restores sampleProps selectedTwoState (Value.vint 1)
    (by decide)

/-- Props with two rows sharing the key value `id = 1`. -/
def dupKeyProps : TableProps :=
  { sampleProps with
    data := [[("id", Value.vint 1)], [("id", Value.vint 1)]] }

/-- Claim C5, counterexample.  With two rows sharing key `1`, the
collection is non-empty but after `toggle-select-all(true)` the selection
set collapses to one key, so `all-selected` reads `false`, refuting the
claim's unrestricted quantification over row collections. -/
theorem select_all_fails_on_duplicate_keys :
    dupKeyProps.data ≠ []
    ∧ ((handleSelectAll dupKeyProps initialState true).1).selectedRowKeys =
        [Value.vint 1]
    ∧ isAllSelected dupKeyProps
        ((handleSelectAll dupKeyProps initialState true).1) = false := by
  refine ⟨by decide, by decide, by decide⟩

/-- Claim C5, amended.  For every non-empty row collection *whose computed
row keys are pairwise distinct*, `toggle-select-all(true)` makes the
selection set the set of all current row keys and `all-selected` then
reads true; a subsequent `toggle-select-all(false)` empties the set, after
which `all-selected` and `partially-selected` both read false. -/
theorem select_all_distinct_keys (p : TableProps) (st : TableState)
    (hne : p.data ≠ []) (hnodup : (selectAllKeys p).Nodup) :
    ((handleSelectAll p st true).1).selectedRowKeys = selectAllKeys p
    ∧ isAllSelected p ((handleSelectAll p st true).1) = true
    ∧ ((handleSelectAll p ((handleSelectAll p st true).1)
        false).1).selectedRowKeys = []
    ∧ isAllSelected p
        ((handleSelectAll p ((handleSelectAll p st true).1) false).1) = false
    ∧ isIndeterminate p
        ((handleSelectAll p ((handleSelectAll p st true).1) false).1) = false := by
  have hkeys : keySet (selectAllKeys p) = selectAllKeys p :=
    keySet_eq_self_of_nodup hnodup
  have hlen : 0 < p.data.length := List.length_pos.mpr hne
  refine ⟨?_, ?_, ?_, ?_, ?_⟩
  · simp [handleSelectAll, hkeys]
  · simp [handleSelectAll, isAllSelected, hkeys, selectAllKeys_length, hlen]
  · simp [handleSelectAll]
  · unfold isAllSelected
    have hsel : ((handleSelectAll p ((handleSelectAll p st true).1)
        false).1).selectedRowKeys = ([] : List Value) := by
      simp [handleSelectAll]
    rw [hsel]
    cases hd : p.data with
    | nil => exact absurd hd hne
    | cons r rs => simp
  · simp [handleSelectAll, isIndeterminate]

/-- Witness for amended C5 on the two-row sample with distinct keys. -/
theorem select_all_distinct_keys_witness :
    ((handleSelectAll sampleProps initialState true).1).selectedRowKeys =
      selectAllKeys sampleProps
    ∧ isAllSelected sampleProps
        ((handleSelectAll sampleProps initialState true).1) = true
    ∧ isAllSelected sampleProps
        ((handleSelectAll sampleProps
          ((handleSelectAll sampleProps initialState true).1) false).1) = false := by
  have h := select_all_distinct_keys sampleProps initialState
    (by decide) (by decide)
  exact ⟨h.1, h.2.1, h.2.2.2.1⟩

/-- Claim C6, counterexample.  With rows lacking the `id` key field and an
active descending-style reorder (name ascending reverses the input), the
render site keys `anonRowA` by its *sorted* position `0`, while the
selection handlers key it by its original index `1`: the fallback index is
not the same in every place a row key is computed. -/
theorem row_key_fallback_not_uniform :
    sortedData anonProps anonSortedState = [anonRowA, anonRowB]
    ∧ anonProps.data = [anonRowB, anonRowA]
    ∧ renderRowKeys anonProps anonSortedState = [Value.vint 0, Value.vint 1]
    ∧ getRowKey anonProps anonRowA 1 = Value.vint 1
    ∧ selectAllKeys anonProps = [Value.vint 0, Value.vint 1]
    ∧ Value.vint 0 ≠ Value.vint 1 := by
  refine ⟨by decide, by decide, by decide, by decide, by decide, by decide⟩

/-- Claim C6, amended.  When the key field reads nullish on every row, the
fallback identity is the positional index *as passed at each call site*:
the per-row toggle, select-all and callback-filter sites key rows by their
index in the original pre-sort collection, while the render site keys them
by their index in the sorted view. -/
theorem row_key_fallback_positional (p : TableProps) (st : TableState)
    (name : String) (hk : p.rowKey = RowKeyStrategy.field name)
    (hnull : ∀ r ∈ p.data, isNullish (getField r name) = true) :
    selectAllKeys p =
      (List.range p.data.length).map (fun i => Value.vint (Int.ofNat i))
    ∧ (∀ keys, selectedRows p keys =
        filterWithIndex (fun i _ => decide (Value.vint (Int.ofNat i) ∈ keys))
          p.data)
    ∧ renderRowKeys p st =
        (List.range p.data.length).map (fun i => Value.vint (Int.ofNat i)) := by
  have hnullSorted : ∀ r ∈ sortedData p st, isNullish (getField r name) = true :=
    fun r hr => hnull r ((sortedData_perm p st).mem_iff.mp hr)
  have hlen : (sortedData p st).length = p.data.length :=
    (sortedData_perm p st).length_eq
  refine ⟨?_, ?_, ?_⟩
  · rw [List.range_eq_range']
    exact mapIdxAux_getRowKey_range p name hk p.data 0 hnull
  · intro keys
    apply filterIdxAux_congr
    intro i r hr
    have : getRowKey p r i = Value.vint (Int.ofNat i) := by
      simp [getRowKey, hk, hnull r hr]
    rw [this]
  · rw [List.range_eq_range', ← hlen]
    exact mapIdxAux_getRowKey_range p name hk (sortedData p st) 0 hnullSorted

/-- Witness for amended C6 on the keyless rows: both the selection-site
keys and the render-site keys are the indices `0, 1`. -/
theorem row_key_fallback_positional_witness :
    selectAllKeys anonProps =
      (List.range anonProps.data.length).map (fun i => Value.vint (Int.ofNat i))
    ∧ renderRowKeys anonProps anonSortedState =
      (List.range anonProps.data.length).map (fun i => Value.vint (Int.ofNat i)) := by
  have h := row_key_fallback_positional anonProps anonSortedState "id"
    rfl (by decide)
  exact ⟨h.1, h.2.2⟩

/-- Claim C7.  Sort state and selection state are independent: a sort
cycle never changes the selected keys, and a row-selection toggle never
changes the active sort column or order. -/
theorem sort_selection_independent (p : TableProps) (c : Column)
    (st : TableState) (k : Value) (sel : Bool) :
    (handleSortState c st).selectedRowKeys = st.selectedRowKeys
    ∧ ((handleRowSelect p st k sel).1).sortState = st.sortState :=
  ⟨rfl, rfl⟩

/-- Claim C8.  The render state is exactly one of loading, empty,
populated: loading whenever the flag is set (precedence over empty), empty
exactly when not loading with zero rows, populated otherwise; in the empty
state the output is the empty panel carrying the caller's message verbatim,
with no column headers and no checkboxes. -/
theorem render_state_machine (p : TableProps) (st : TableState) :
    (p.loading = true → renderMode p = RenderMode.loading)
    ∧ (renderMode p = RenderMode.empty ↔
        (p.loading = false ∧ p.data.length = 0))
    ∧ (p.loading = false → p.data.length ≠ 0 →
        renderMode p = RenderMode.populated)
    ∧ (p.loading = false → p.data.length = 0 →
        (render p st =
          [RenderAtom.emptyStateTitle, RenderAtom.emptyStateMessage p.emptyMessage]
        ∧ RenderAtom.emptyStateMessage p.emptyMessage ∈ render p st
        ∧ (∀ t, RenderAtom.columnHeader t ∉ render p st)
        ∧ (∀ b i, RenderAtom.selectAllCheckbox b i ∉ render p st)
        ∧ (∀ k b, RenderAtom.rowCheckbox k b ∉ render p st))) := by
  refine ⟨?_, ?_, ?_, ?_⟩
  · intro h
    simp [renderMode, h]
  · constructor
    · intro h
      by_cases hl : p.loading = true
      · simp [renderMode, hl] at h
      · have hl' : p.loading = false := by
          revert hl; cases p.loading <;> simp
        by_cases hd : p.data.length = 0
        · exact ⟨hl', hd⟩
        · simp [renderMode, hl', hd] at h
    · rintro ⟨hl, hd⟩
      simp [renderMode, hl, hd]
  · intro hl hd
    simp [renderMode, hl, hd]
  · intro hl hd
    have hr : render p st =
        [RenderAtom.emptyStateTitle, RenderAtom.emptyStateMessage p.emptyMessage] := by
      simp [render, hl, hd]
    refine ⟨hr, ?_, ?_, ?_, ?_⟩
    · rw [hr]; simp
    · intro t; rw [hr]; simp
    · intro b i; rw [hr]; simp
    · intro k b; rw [hr]; simp

/-- Witness for C8: with no rows, not loading, and the message
`"No users"`, the component renders exactly the empty panel with that
message and no headers or checkboxes. -/
theorem render_state_machine_witness :
    renderMode { sampleProps with data := [], emptyMessage := "No users" } =
      RenderMode.empty
    ∧ render { sampleProps with data := [], emptyMessage := "No users" }
        initialState =
      [RenderAtom.emptyStateTitle, RenderAtom.emptyStateMessage "No users"]
    ∧ (∀ t, RenderAtom.columnHeader t ∉
        render { sampleProps with data := [], emptyMessage := "No users" }
          initialState) := by
  have h := render_state_machine
    { sampleProps with data := [], emptyMessage := "No users" } initialState
  exact ⟨h.2.1.mpr ⟨rfl, rfl⟩, (h.2.2.2 rfl rfl).1, (h.2.2.2 rfl rfl).2.2.1⟩

/-- Claim C9.  No operation mutates the caller-supplied rows or column
descriptors: every handler leaves the props untouched, and the sorted view
is a permutation of the caller's rows (sorting happens on a copy, losing
and altering nothing). -/
theorem caller_data_never_mutated (w : TableWorld) (c : Column) (k : Value)
    (sel b : Bool) :
    (worldSort c w).props = w.props
    ∧ (worldRowSelect k sel w).props = w.props
    ∧ (worldSelectAll b w).props = w.props
    ∧ (sortedData w.props w.state).Perm w.props.data :=
  ⟨rfl, rfl, rfl, sortedData_perm w.props w.state⟩

/-- Claim C10.  When the active sort column's identifier matches no
descriptor in the current column list, `sortedData` returns the rows in
their original input order, the same behaviour as a cleared sort state. -/
theorem stale_sort_column_keeps_input_order (p : TableProps)
    (st : TableState) (ck : String)
    (h1 : st.sortState.column = some ck)
    (h2 : p.columns.find? (fun c => c.key == ck) = none) :
    sortedData p st = p.data
    ∧ sortedData p
        { st with sortState := { column := none, order := none } } = p.data := by
  constructor
  · unfold sortedData
    rw [h1]
    cases ho : st.sortState.order with
    | none => rfl
    | some ord =>
      by_cases hck : ck = ""
      · simp [hck]
      · simp [hck, h2]
  · rfl

/-- Witness for C10: sorting by a column key (`"gone"`) absent from the
column list leaves the sample rows in input order. -/
theorem stale_sort_column_keeps_input_order_witness :
    sortedData sampleProps
      { sortState := { column := some "gone", order := some SortOrder.asc },
        selectedRowKeys := [] } = sampleProps.data :=
  (stale_sort_column_keeps_input_order sampleProps
    { sortState := { column := some "gone", order := some SortOrder.asc },
      selectedRowKeys := [] } "gone" rfl (by decide)).1

end DataTable
